import Mathlib

/-!
Verification of `src/modules/FlatTransferFunctionOnTheta.cc` from MoMEMta.

The module reads one sampled scalar (`ps_point`) and one four-momentum
(`reco_particle`), writes one output four-momentum and one scalar weight
(`TF_times_jacobian`), and returns a status code.  Doubles are embedded as
real numbers; `M_PI` becomes `Real.pi`.
-/

/-- A four-momentum in Cartesian (PxPyPzE) coordinates, embedding the
`LorentzVector` type the module reads and writes. -/
structure LorentzVector where
  px : ℝ
  py : ℝ
  pz : ℝ
  E  : ℝ

/-- Modelled from the spec: the momentum magnitude accessor `P()` of the
`LorentzVector` dependency (its source is not under src/); the spec describes a
four-momentum equivalently as (energy, momentum magnitude, polar angle,
azimuthal angle), with the magnitude the Euclidean norm of (px, py, pz). -/
noncomputable def LorentzVector.P (v : LorentzVector) : ℝ :=
  Real.sqrt (v.px ^ 2 + v.py ^ 2 + v.pz ^ 2)

/-- Modelled from the spec: the azimuthal-angle accessor `Phi()` of the
`LorentzVector` dependency (its source is not under src/): the angle of the
(px, py) projection, i.e. atan2(py, px), embedded as the argument of the
complex number px + i·py (range (-π, π], 0 at the origin). -/
noncomputable def LorentzVector.Phi (v : LorentzVector) : ℝ :=
  Complex.arg ⟨v.px, v.py⟩

/-- Modelled from the spec: the polar-angle accessor `Theta()` of the
`LorentzVector` dependency (its source is not under src/): the angle from the
positive z-axis, i.e. atan2(sqrt(px² + py²), pz), embedded as the argument of
the complex number pz + i·sqrt(px² + py²) (range [0, π], 0 at the origin). -/
noncomputable def LorentzVector.Theta (v : LorentzVector) : ℝ :=
  Complex.arg ⟨v.pz, Real.sqrt (v.px ^ 2 + v.py ^ 2)⟩

/-- Modelled from the spec: the status code a module's execution entry point
returns to the host (declared in the framework headers, not under src/); the
module only ever uses the success value `OK`. -/
inductive Status where
  | OK
  | NEXT
  | ABORT
  | ERROR
deriving DecidableEq

/-- The body of `FlatTransferFunctionOnTheta::work`: from the sampled scalar
`ps_point` and the input `reco_particle`, compute `new_theta = π · ps_point`,
build the output vector via `SetCoordinates`, set the weight to π, and return
`Status::OK`.  Result: (output, TF_times_jacobian, status). -/
noncomputable def work (ps_point : ℝ) (reco_particle : LorentzVector) :
    LorentzVector × ℝ × Status :=
  (⟨reco_particle.P * Real.sin (Real.pi * ps_point) * Real.cos reco_particle.Phi,
    reco_particle.P * Real.sin (Real.pi * ps_point) * Real.sin reco_particle.Phi,
    reco_particle.P * Real.cos (Real.pi * ps_point),
    reco_particle.E⟩,
   Real.pi, Status.OK)

/-- The state visible to one module instance: the two resolved input slots,
the two output slots it produced, and the rest of the host pool's storage. -/
structure PoolState where
  ps_point : ℝ
  reco_particle : LorentzVector
  output : LorentzVector
  TF_times_jacobian : ℝ
  rest : List ℝ

/-- `work` as a transformer of the pool state: it reads the two input slots,
overwrites the two output slots, and returns the status. -/
noncomputable def workState (s : PoolState) : PoolState × Status :=
  ({ s with
      output := (work s.ps_point s.reco_particle).1,
      TF_times_jacobian := (work s.ps_point s.reco_particle).2.1 },
   (work s.ps_point s.reco_particle).2.2)

/-- `FlatTransferFunctionOnTheta::dimensions`: a const method of the instance,
returning 1 regardless of the instance's state. -/
def dimensions (_s : PoolState) : Nat := 1

lemma LorentzVector.P_nonneg (v : LorentzVector) : 0 ≤ v.P :=
  Real.sqrt_nonneg _

/-- The argument of the complex number (r·cos θ) + i·(r·sin θ) is θ itself,
for r > 0 and θ in the principal range. -/
lemma arg_mk_polar {r θ : ℝ} (hr : 0 < r)
    (hθ : θ ∈ Set.Ioc (-Real.pi) Real.pi) :
    Complex.arg ⟨r * Real.cos θ, r * Real.sin θ⟩ = θ := by
  have h1 : (⟨r * Real.cos θ, r * Real.sin θ⟩ : ℂ)
      = (r : ℂ) * (Complex.cos θ + Complex.sin θ * Complex.I) := by
    apply Complex.ext <;>
      simp only [Complex.mul_re, Complex.mul_im, Complex.add_re, Complex.add_im,
        Complex.ofReal_re, Complex.ofReal_im, Complex.cos_ofReal_re,
        Complex.cos_ofReal_im, Complex.sin_ofReal_re, Complex.sin_ofReal_im,
        Complex.I_re, Complex.I_im] <;> ring
  rw [h1, Complex.arg_real_mul _ hr, Complex.arg_cos_add_sin_mul_I hθ]

/-- C1: for every sampled scalar u in [0,1] and every input four-momentum p,
`work` produces the output components x = |p|·sin(π·u)·cos(φ(p)),
y = |p|·sin(π·u)·sin(φ(p)), z = |p|·cos(π·u), with energy E(p). -/
theorem flatTF_work_components (u : ℝ) (p : LorentzVector)
    (h0 : 0 ≤ u) (h1 : u ≤ 1) :
    (work u p).1.px = p.P * Real.sin (Real.pi * u) * Real.cos p.Phi ∧
    (work u p).1.py = p.P * Real.sin (Real.pi * u) * Real.sin p.Phi ∧
    (work u p).1.pz = p.P * Real.cos (Real.pi * u) ∧
    (work u p).1.E = p.E :=
  ⟨rfl, rfl, rfl, rfl⟩

/-- Witness for C1 at u = 1/2 and a concrete input vector. -/
theorem flatTF_work_components_witness :
    (0 : ℝ) ≤ 1 / 2 ∧ (1 : ℝ) / 2 ≤ 1 ∧
    ((work (1 / 2) ⟨1, 2, 3, 4⟩).1.px
        = LorentzVector.P ⟨1, 2, 3, 4⟩ * Real.sin (Real.pi * (1 / 2))
            * Real.cos (LorentzVector.Phi ⟨1, 2, 3, 4⟩) ∧
      (work (1 / 2) ⟨1, 2, 3, 4⟩).1.py
        = LorentzVector.P ⟨1, 2, 3, 4⟩ * Real.sin (Real.pi * (1 / 2))
            * Real.sin (LorentzVector.Phi ⟨1, 2, 3, 4⟩) ∧
      (work (1 / 2) ⟨1, 2, 3, 4⟩).1.pz
        = LorentzVector.P ⟨1, 2, 3, 4⟩ * Real.cos (Real.pi * (1 / 2)) ∧
      (work (1 / 2) ⟨1, 2, 3, 4⟩).1.E = (4 : ℝ)) :=
  ⟨by norm_num, by norm_num,
   flatTF_work_components (1 / 2) ⟨1, 2, 3, 4⟩ (by norm_num) (by norm_num)⟩

/-- C3: the weight written to TF_times_jacobian is exactly π, for every
sampled scalar and every input four-momentum. -/
theorem flatTF_weight_eq_pi (u : ℝ) (p : LorentzVector) :
    (work u p).2.1 = Real.pi :=
  rfl

/-- C4: the dimensions query returns exactly 1 for every instance state,
independent of any input or prior invocation. -/
theorem flatTF_dimensions_eq_one (s : PoolState) : dimensions s = 1 :=
  rfl

/-- C5: the execution entry point returns the success status on every
invocation, for every pool state. -/
theorem flatTF_work_status_ok (s : PoolState) :
    (workState s).2 = Status.OK :=
  rfl

/-- C6: at u = 0 the output momentum is purely along the positive z-axis
(x = y = 0, z = |p|); at u = 1 it is along the negative z-axis
(x = y = 0, z = -|p|), for every input four-momentum. -/
theorem flatTF_boundary_u_zero_one (p : LorentzVector) :
    ((work 0 p).1.px = 0 ∧ (work 0 p).1.py = 0 ∧ (work 0 p).1.pz = p.P) ∧
    ((work 1 p).1.px = 0 ∧ (work 1 p).1.py = 0 ∧ (work 1 p).1.pz = -p.P) := by
  constructor
  · refine ⟨?_, ?_, ?_⟩ <;>
      simp [work, Real.sin_zero, Real.cos_zero, mul_zero, zero_mul, mul_one]
  · refine ⟨?_, ?_, ?_⟩ <;>
      simp [work, Real.sin_pi, Real.cos_pi, mul_zero, zero_mul, mul_one]

/-- C9: `work` is total in the sampled scalar: for every real u (also outside
[0,1]) and every input four-momentum, it computes the output from π·u by the
same formulas, writes the weight π, and returns the success status. -/
theorem flatTF_total_any_u (u : ℝ) (p : LorentzVector) :
    (work u p).1.px = p.P * Real.sin (Real.pi * u) * Real.cos p.Phi ∧
    (work u p).1.py = p.P * Real.sin (Real.pi * u) * Real.sin p.Phi ∧
    (work u p).1.pz = p.P * Real.cos (Real.pi * u) ∧
    (work u p).1.E = p.E ∧
    (work u p).2.1 = Real.pi ∧
    (work u p).2.2 = Status.OK :=
  ⟨rfl, rfl, rfl, rfl, rfl, rfl⟩

lemma theta_mem_Icc (v : LorentzVector) :
    0 ≤ v.Theta ∧ v.Theta ≤ Real.pi :=
  ⟨Complex.arg_nonneg_iff.mpr (Real.sqrt_nonneg _), Complex.arg_le_pi _⟩

/-- C2 as stated is false: azimuthal angle is not always preserved.  At u = 0
with input (px, py, pz, E) = (0, 1, 0, 1), the input azimuth is π/2 but the
output is (0, 0, |p|, E), whose azimuth is 0. -/
theorem flatTF_phi_not_preserved_cex :
    (work 0 ⟨0, 1, 0, 1⟩).1.Phi ≠ LorentzVector.Phi ⟨0, 1, 0, 1⟩ := by
  have hin : LorentzVector.Phi ⟨0, 1, 0, 1⟩ = Real.pi / 2 := by
    show Complex.arg ⟨0, 1⟩ = Real.pi / 2
    have hI : (⟨(0 : ℝ), 1⟩ : ℂ) = Complex.I := by
      apply Complex.ext <;> simp
    rw [hI, Complex.arg_I]
  have hout : (work 0 ⟨0, 1, 0, 1⟩).1.Phi = 0 := by
    show Complex.arg _ = 0
    exact Complex.arg_eq_zero_iff.mpr ⟨by simp [work], by simp [work]⟩
  rw [hin, hout]
  exact Ne.symm (ne_of_gt (by positivity))

/-- C2 (amended): for every u in [0,1] and every input p, `work` preserves
energy and momentum magnitude, and the output polar angle lies in [0, π];
when the input momentum magnitude is positive the output polar angle equals
π·u, and when moreover 0 < u < 1 the azimuthal angle is also preserved.
(Azimuth preservation fails at u = 0 or u = 1; the polar-angle identity fails
for zero-momentum inputs.) -/
theorem flatTF_invariants (u : ℝ) (p : LorentzVector)
    (h0 : 0 ≤ u) (h1 : u ≤ 1) :
    (work u p).1.E = p.E ∧
    (work u p).1.P = p.P ∧
    (0 ≤ (work u p).1.Theta ∧ (work u p).1.Theta ≤ Real.pi) ∧
    (0 < p.P → (work u p).1.Theta = Real.pi * u) ∧
    (0 < p.P → 0 < u → u < 1 → (work u p).1.Phi = p.Phi) := by
  have hs : 0 ≤ Real.sin (Real.pi * u) :=
    Real.sin_nonneg_of_nonneg_of_le_pi
      (mul_nonneg Real.pi_pos.le h0)
      (mul_le_of_le_one_right Real.pi_pos.le h1)
  have key : (p.P * Real.sin (Real.pi * u) * Real.cos p.Phi) ^ 2
      + (p.P * Real.sin (Real.pi * u) * Real.sin p.Phi) ^ 2
      + (p.P * Real.cos (Real.pi * u)) ^ 2 = p.P ^ 2 := by
    linear_combination
      (p.P * Real.sin (Real.pi * u)) ^ 2 * Real.sin_sq_add_cos_sq p.Phi
        + p.P ^ 2 * Real.sin_sq_add_cos_sq (Real.pi * u)
  have hrho : Real.sqrt ((p.P * Real.sin (Real.pi * u) * Real.cos p.Phi) ^ 2
      + (p.P * Real.sin (Real.pi * u) * Real.sin p.Phi) ^ 2)
      = p.P * Real.sin (Real.pi * u) := by
    have k2 : (p.P * Real.sin (Real.pi * u) * Real.cos p.Phi) ^ 2
        + (p.P * Real.sin (Real.pi * u) * Real.sin p.Phi) ^ 2
        = (p.P * Real.sin (Real.pi * u)) ^ 2 := by
      linear_combination
        (p.P * Real.sin (Real.pi * u)) ^ 2 * Real.sin_sq_add_cos_sq p.Phi
    rw [k2, Real.sqrt_sq (mul_nonneg p.P_nonneg hs)]
  refine ⟨rfl, ?_, theta_mem_Icc _, ?_, ?_⟩
  · have hPdef : (work u p).1.P
        = Real.sqrt ((p.P * Real.sin (Real.pi * u) * Real.cos p.Phi) ^ 2
          + (p.P * Real.sin (Real.pi * u) * Real.sin p.Phi) ^ 2
          + (p.P * Real.cos (Real.pi * u)) ^ 2) := rfl
    rw [hPdef, key, Real.sqrt_sq p.P_nonneg]
  · intro hPpos
    have hθdef : (work u p).1.Theta
        = Complex.arg ⟨p.P * Real.cos (Real.pi * u),
            Real.sqrt ((p.P * Real.sin (Real.pi * u) * Real.cos p.Phi) ^ 2
              + (p.P * Real.sin (Real.pi * u) * Real.sin p.Phi) ^ 2)⟩ := rfl
    rw [hθdef, hrho]
    exact arg_mk_polar hPpos
      ⟨lt_of_lt_of_le (neg_lt_zero.mpr Real.pi_pos) (mul_nonneg Real.pi_pos.le h0),
       mul_le_of_le_one_right Real.pi_pos.le h1⟩
  · intro hPpos hu0 hu1
    have hspos : 0 < Real.sin (Real.pi * u) :=
      Real.sin_pos_of_pos_of_lt_pi (mul_pos Real.pi_pos hu0)
        (mul_lt_of_lt_one_right Real.pi_pos hu1)
    have hφdef : (work u p).1.Phi
        = Complex.arg ⟨p.P * Real.sin (Real.pi * u) * Real.cos p.Phi,
            p.P * Real.sin (Real.pi * u) * Real.sin p.Phi⟩ := rfl
    rw [hφdef]
    exact arg_mk_polar (mul_pos hPpos hspos)
      ⟨Complex.neg_pi_lt_arg _, Complex.arg_le_pi _⟩

/-- Witness for the amended C2 at u = 1/2 and a concrete input vector. -/
theorem flatTF_invariants_witness :
    (0 : ℝ) ≤ 1 / 2 ∧ (1 : ℝ) / 2 ≤ 1 ∧
    ((work (1 / 2) ⟨3, 4, 0, 10⟩).1.E = (10 : ℝ) ∧
     (work (1 / 2) ⟨3, 4, 0, 10⟩).1.P = LorentzVector.P ⟨3, 4, 0, 10⟩ ∧
     (0 ≤ (work (1 / 2) ⟨3, 4, 0, 10⟩).1.Theta ∧
       (work (1 / 2) ⟨3, 4, 0, 10⟩).1.Theta ≤ Real.pi) ∧
     (0 < LorentzVector.P ⟨3, 4, 0, 10⟩ →
       (work (1 / 2) ⟨3, 4, 0, 10⟩).1.Theta = Real.pi * (1 / 2)) ∧
     (0 < LorentzVector.P ⟨3, 4, 0, 10⟩ → 0 < (1 : ℝ) / 2 → (1 : ℝ) / 2 < 1 →
       (work (1 / 2) ⟨3, 4, 0, 10⟩).1.Phi = LorentzVector.Phi ⟨3, 4, 0, 10⟩)) :=
  ⟨by norm_num, by norm_num,
   flatTF_invariants (1 / 2) ⟨3, 4, 0, 10⟩ (by norm_num) (by norm_num)⟩

/-- C7: the execution entry point is deterministic.  Any two invocations whose
input slots hold identical values produce identical output four-momenta,
identical weights, and identical status, regardless of the prior contents of
the output slots or of the rest of the pool. -/
theorem flatTF_work_deterministic (s₁ s₂ : PoolState)
    (hu : s₁.ps_point = s₂.ps_point)
    (hp : s₁.reco_particle = s₂.reco_particle) :
    (workState s₁).1.output = (workState s₂).1.output ∧
    (workState s₁).1.TF_times_jacobian = (workState s₂).1.TF_times_jacobian ∧
    (workState s₁).2 = (workState s₂).2 := by
  refine ⟨?_, ?_, ?_⟩ <;> simp only [workState] <;> rw [hu, hp]

/-- Witness for C7: two pool states with the same inputs but different prior
output-slot contents and different pool remainders. -/
theorem flatTF_work_deterministic_witness :
    (⟨1 / 2, ⟨1, 2, 3, 4⟩, ⟨0, 0, 0, 0⟩, 0, []⟩ : PoolState).ps_point
      = (⟨1 / 2, ⟨1, 2, 3, 4⟩, ⟨9, 9, 9, 9⟩, 7, [5]⟩ : PoolState).ps_point ∧
    (⟨1 / 2, ⟨1, 2, 3, 4⟩, ⟨0, 0, 0, 0⟩, 0, []⟩ : PoolState).reco_particle
      = (⟨1 / 2, ⟨1, 2, 3, 4⟩, ⟨9, 9, 9, 9⟩, 7, [5]⟩ : PoolState).reco_particle ∧
    ((workState ⟨1 / 2, ⟨1, 2, 3, 4⟩, ⟨0, 0, 0, 0⟩, 0, []⟩).1.output
        = (workState ⟨1 / 2, ⟨1, 2, 3, 4⟩, ⟨9, 9, 9, 9⟩, 7, [5]⟩).1.output ∧
      (workState ⟨1 / 2, ⟨1, 2, 3, 4⟩, ⟨0, 0, 0, 0⟩, 0, []⟩).1.TF_times_jacobian
        = (workState ⟨1 / 2, ⟨1, 2, 3, 4⟩, ⟨9, 9, 9, 9⟩, 7, [5]⟩).1.TF_times_jacobian ∧
      (workState ⟨1 / 2, ⟨1, 2, 3, 4⟩, ⟨0, 0, 0, 0⟩, 0, []⟩).2
        = (workState ⟨1 / 2, ⟨1, 2, 3, 4⟩, ⟨9, 9, 9, 9⟩, 7, [5]⟩).2) :=
  ⟨rfl, rfl,
   flatTF_work_deterministic
     ⟨1 / 2, ⟨1, 2, 3, 4⟩, ⟨0, 0, 0, 0⟩, 0, []⟩
     ⟨1 / 2, ⟨1, 2, 3, 4⟩, ⟨9, 9, 9, 9⟩, 7, [5]⟩ rfl rfl⟩

/-- C8: frame condition.  One invocation overwrites only the two declared
output slots: the input slots and the rest of the pool are unchanged (the
input four-momentum is never mutated), and the values written to the two
output slots are functions of the two input slots alone. -/
theorem flatTF_frame (s : PoolState) :
    (workState s).1.ps_point = s.ps_point ∧
    (workState s).1.reco_particle = s.reco_particle ∧
    (workState s).1.rest = s.rest ∧
    (workState s).1.output = (work s.ps_point s.reco_particle).1 ∧
    (workState s).1.TF_times_jacobian = (work s.ps_point s.reco_particle).2.1 :=
  ⟨rfl, rfl, rfl, rfl, rfl⟩

/-- C10: the output depends on the input four-momentum only through its
energy, momentum magnitude, and azimuth: two inputs agreeing on those three
but differing in polar angle give identical outputs and identical weights. -/
theorem flatTF_depends_only_on_E_P_phi (u : ℝ) (p₁ p₂ : LorentzVector)
    (hE : p₁.E = p₂.E) (hP : p₁.P = p₂.P) (hPhi : p₁.Phi = p₂.Phi)
    (hTheta : p₁.Theta ≠ p₂.Theta) :
    (work u p₁).1.px = (work u p₂).1.px ∧
    (work u p₁).1.py = (work u p₂).1.py ∧
    (work u p₁).1.pz = (work u p₂).1.pz ∧
    (work u p₁).1.E = (work u p₂).1.E ∧
    (work u p₁).2.1 = (work u p₂).2.1 := by
  refine ⟨?_, ?_, ?_, ?_, ?_⟩ <;> simp only [work, hE, hP, hPhi]

/-- Witness for C10: the inputs (0,0,5,10) and (0,0,-5,10) share energy,
momentum magnitude, and azimuth, but have polar angles 0 and π. -/
theorem flatTF_depends_only_on_E_P_phi_witness :
    LorentzVector.E ⟨0, 0, 5, 10⟩ = LorentzVector.E ⟨0, 0, -5, 10⟩ ∧
    LorentzVector.P ⟨0, 0, 5, 10⟩ = LorentzVector.P ⟨0, 0, -5, 10⟩ ∧
    LorentzVector.Phi ⟨0, 0, 5, 10⟩ = LorentzVector.Phi ⟨0, 0, -5, 10⟩ ∧
    LorentzVector.Theta ⟨0, 0, 5, 10⟩ ≠ LorentzVector.Theta ⟨0, 0, -5, 10⟩ ∧
    ((work (1 / 2) ⟨0, 0, 5, 10⟩).1.px = (work (1 / 2) ⟨0, 0, -5, 10⟩).1.px ∧
     (work (1 / 2) ⟨0, 0, 5, 10⟩).1.py = (work (1 / 2) ⟨0, 0, -5, 10⟩).1.py ∧
     (work (1 / 2) ⟨0, 0, 5, 10⟩).1.pz = (work (1 / 2) ⟨0, 0, -5, 10⟩).1.pz ∧
     (work (1 / 2) ⟨0, 0, 5, 10⟩).1.E = (work (1 / 2) ⟨0, 0, -5, 10⟩).1.E ∧
     (work (1 / 2) ⟨0, 0, 5, 10⟩).2.1 = (work (1 / 2) ⟨0, 0, -5, 10⟩).2.1) := by
  have hP : LorentzVector.P ⟨0, 0, 5, 10⟩ = LorentzVector.P ⟨0, 0, -5, 10⟩ := by
    show Real.sqrt ((0 : ℝ) ^ 2 + 0 ^ 2 + 5 ^ 2)
        = Real.sqrt ((0 : ℝ) ^ 2 + 0 ^ 2 + (-5) ^ 2)
    norm_num
  have hT1 : LorentzVector.Theta ⟨0, 0, 5, 10⟩ = 0 := by
    show Complex.arg ⟨5, Real.sqrt ((0 : ℝ) ^ 2 + 0 ^ 2)⟩ = 0
    exact Complex.arg_eq_zero_iff.mpr ⟨by norm_num, by simp⟩
  have hT2 : LorentzVector.Theta ⟨0, 0, -5, 10⟩ = Real.pi := by
    show Complex.arg ⟨-5, Real.sqrt ((0 : ℝ) ^ 2 + 0 ^ 2)⟩ = Real.pi
    exact Complex.arg_eq_pi_iff.mpr ⟨by norm_num, by simp⟩
  have hT : LorentzVector.Theta ⟨0, 0, 5, 10⟩ ≠ LorentzVector.Theta ⟨0, 0, -5, 10⟩ := by
    rw [hT1, hT2]; exact Ne.symm Real.pi_ne_zero
  exact ⟨rfl, hP, rfl, hT,
    flatTF_depends_only_on_E_P_phi (1 / 2) ⟨0, 0, 5, 10⟩ ⟨0, 0, -5, 10⟩ rfl hP rfl hT⟩
